import Mathlib

/-!
Verification of the kcp API-binding subsystem against its specification.

The development shallowly embeds the relevant parts of the Go sources:

- the bound-CRD hash component, function ByBase36Sha224NameValue
  (lowercase base36 of a SHA-224 digest, truncated to 8 characters);
- the extra-annotation merge-patch computation, syncExtraAnnotationPatch,
  and the per-key process function of the extra-annotation controller;
- the two-tier (local-then-global) export and schema resolvers;
- the APIExportEndpointSlice reconciler, reconcile and updateEndpoints;
- the worker loop, processNextWorkItem.

Machine integers are modelled as Nat with explicit reduction modulo 2^32.
Go maps are modelled as association lists with pairwise-distinct keys.
External collaborators (net/url, path.Join, the informer caches, the write
clients) are modelled as function parameters; theorems about code built on
them hold for every instantiation of those parameters.
-/

set_option maxRecDepth 20000

/-! ## Bytes and UTF-8

Go converts a string to its UTF-8 bytes before hashing. -/

/-- UTF-8 encoding of one code point, as a list of byte values. -/
def utf8EncodeCharNat (c : Nat) : List Nat :=
  if c < 0x80 then [c]
  else if c < 0x800 then [0xC0 ||| (c >>> 6), 0x80 ||| (c &&& 0x3F)]
  else if c < 0x10000 then
    [0xE0 ||| (c >>> 12), 0x80 ||| ((c >>> 6) &&& 0x3F), 0x80 ||| (c &&& 0x3F)]
  else
    [0xF0 ||| (c >>> 18), 0x80 ||| ((c >>> 12) &&& 0x3F),
     0x80 ||| ((c >>> 6) &&& 0x3F), 0x80 ||| (c &&& 0x3F)]

/-- The UTF-8 bytes of a string, following the Go conversion []byte(s). -/
def strBytes (s : String) : List Nat :=
  s.data.foldr (fun c acc => utf8EncodeCharNat c.toNat ++ acc) []

/-! ## SHA-224

Faithful model of crypto/sha256.Sum224, operating on Nat with explicit
wrap-around modulo 2^32. Checked against FIPS 180-4 test vectors below. -/

/-- Reduce modulo 2^32, the word size of the SHA-2 32-bit family. -/
def w32 (n : Nat) : Nat := n % 4294967296

/-- Rotate a 32-bit word right by n bits. -/
def rotr32 (x n : Nat) : Nat := w32 ((x >>> n) ||| (x <<< (32 - n)))

/-- The SHA-2 choice function. -/
def shaCh (x y z : Nat) : Nat := (x &&& y) ^^^ ((4294967295 ^^^ x) &&& z)

/-- The SHA-2 majority function. -/
def shaMaj (x y z : Nat) : Nat := (x &&& y) ^^^ (x &&& z) ^^^ (y &&& z)

/-- Compression-round big sigma 0. -/
def bigSigma0 (x : Nat) : Nat := rotr32 x 2 ^^^ rotr32 x 13 ^^^ rotr32 x 22

/-- Compression-round big sigma 1. -/
def bigSigma1 (x : Nat) : Nat := rotr32 x 6 ^^^ rotr32 x 11 ^^^ rotr32 x 25

/-- Message-schedule small sigma 0. -/
def smallSigma0 (x : Nat) : Nat := rotr32 x 7 ^^^ rotr32 x 18 ^^^ (x >>> 3)

/-- Message-schedule small sigma 1. -/
def smallSigma1 (x : Nat) : Nat := rotr32 x 17 ^^^ rotr32 x 19 ^^^ (x >>> 10)

/-- The 64 SHA-256 round constants. -/
def sha2K : List Nat :=
  [1116352408, 1899447441, 3049323471, 3921009573, 961987163, 1508970993,
   2453635748, 2870763221, 3624381080, 310598401, 607225278, 1426881987,
   1925078388, 2162078206, 2614888103, 3248222580, 3835390401, 4022224774,
   264347078, 604807628, 770255983, 1249150122, 1555081692, 1996064986,
   2554220882, 2821834349, 2952996808, 3210313671, 3336571891, 3584528711,
   113926993, 338241895, 666307205, 773529912, 1294757372, 1396182291,
   1695183700, 1986661051, 2177026350, 2456956037, 2730485921, 2820302411,
   3259730800, 3345764771, 3516065817, 3600352804, 4094571909, 275423344,
   430227734, 506948616, 659060556, 883997877, 958139571, 1322822218,
   1537002063, 1747873779, 1955562222, 2024104815, 2227730452, 2361852424,
   2428436474, 2756734187, 3204031479, 3329325298]

/-- The SHA-224 initial hash state. -/
def sha224IV : List Nat :=
  [3238371032, 914150663, 812702999, 4144912697,
   4290775857, 1750603025, 1694076839, 3204075428]

/-- Big-endian byte serialization of a number into a fixed number of bytes. -/
def natToBytesBE (len n : Nat) : List Nat :=
  (List.range len).map (fun i => (n >>> (8 * (len - 1 - i))) % 256)

/-- SHA-2 message padding: a 0x80 byte, zeros to 56 mod 64, then the
64-bit big-endian bit length. -/
def sha2Pad (msg : List Nat) : List Nat :=
  msg ++ [0x80] ++ List.replicate ((64 + 56 - ((msg.length + 1) % 64)) % 64) 0
      ++ natToBytesBE 8 (8 * msg.length)

/-- Group bytes into big-endian 32-bit words. -/
def bytesToWordsBE : List Nat → List Nat
  | b0 :: b1 :: b2 :: b3 :: rest =>
      ((b0 <<< 24) ||| (b1 <<< 16) ||| (b2 <<< 8) ||| b3) :: bytesToWordsBE rest
  | _ => []

/-- Extend the 16 block words to the 64-entry message schedule. -/
def msgSchedule (ws : List Nat) : List Nat :=
  (List.range 48).foldl (fun w _ =>
    let i := w.length
    w ++ [w32 (smallSigma1 (w.getD (i - 2) 0) + w.getD (i - 7) 0 +
               smallSigma0 (w.getD (i - 15) 0) + w.getD (i - 16) 0)]) ws

/-- One compression round; the state is the list [a, b, c, d, e, f, g, h]. -/
def sha2RoundStep (s : List Nat) (kw : Nat × Nat) : List Nat :=
  let a := s.getD 0 0
  let b := s.getD 1 0
  let c := s.getD 2 0
  let d := s.getD 3 0
  let e := s.getD 4 0
  let f := s.getD 5 0
  let g := s.getD 6 0
  let h := s.getD 7 0
  let t1 := w32 (h + bigSigma1 e + shaCh e f g + kw.1 + kw.2)
  let t2 := w32 (bigSigma0 a + shaMaj a b c)
  [w32 (t1 + t2), a, b, c, w32 (d + t1), e, f, g]

/-- Compress one 64-byte block into the running hash state. -/
def processBlock (h : List Nat) (block : List Nat) : List Nat :=
  let w := msgSchedule (bytesToWordsBE block)
  let final := (sha2K.zip w).foldl sha2RoundStep h
  List.zipWith (fun x y => w32 (x + y)) h final

/-- Split a byte list into 64-byte chunks; the fuel argument bounds the
recursion and is instantiated with the list length. -/
def chunks64Go : Nat → List Nat → List (List Nat)
  | 0, _ => []
  | _ + 1, [] => []
  | fuel + 1, l => l.take 64 :: chunks64Go fuel (l.drop 64)

/-- SHA-224 of a byte list: pad, compress each block, keep the first
seven words (28 bytes) of the final state. -/
def sha224 (msg : List Nat) : List Nat :=
  let padded := sha2Pad msg
  let digest := (chunks64Go padded.length padded).foldl processBlock sha224IV
  (digest.take 7).foldr (fun wrd acc => natToBytesBE 4 wrd ++ acc) []

/-- Render bytes as lowercase hex, for the test-vector checks. -/
def hexOfBytes (l : List Nat) : String :=
  String.mk (l.foldr (fun b acc => Nat.digitChar (b / 16) :: Nat.digitChar (b % 16) :: acc) [])

/-! ## Base36

Model of base36.EncodeBytes from github.com/martinlindhe/base36: the byte
slice is read as a big-endian integer and written in base 36. The library
returns uppercase digits; the kcp caller lowercases the result. -/

/-- The 36 lowercase base36 digits. -/
def base36Alphabet : List Char := "0123456789abcdefghijklmnopqrstuvwxyz".data

/-- The digit character for one base36 digit value. -/
def base36DigitChar (n : Nat) : Char := base36Alphabet.getD n '0'

/-- Digit-extraction loop; the fuel argument bounds the recursion and any
value of at least the digit count yields the same result. -/
def base36DigitsGo : Nat → Nat → List Char → List Char
  | 0, _, acc => acc
  | fuel + 1, n, acc =>
    if n = 0 then acc
    else base36DigitsGo fuel (n / 36) (base36DigitChar (n % 36) :: acc)

/-- Lowercase base36 digits of a number, most significant first. -/
def base36Digits (n : Nat) : List Char :=
  if n = 0 then ['0'] else base36DigitsGo (n + 1) n []

/-- Read a byte list as a big-endian integer, as big.Int SetBytes does. -/
def bytesBEToNat (l : List Nat) : Nat := l.foldl (fun acc b => acc * 256 + b) 0

/-- base36.EncodeBytes: big-endian integer value of the bytes, written in
base 36 with uppercase digits. -/
def base36EncodeBytes (b : List Nat) : String :=
  String.mk ((base36Digits (bytesBEToNat b)).map Char.toUpper)

/-! ## The bound-CRD name -/

/-- The source function ByBase36Sha224NameValue: SHA-224 the name,
base36-encode the digest, lowercase, keep the first 8 characters. -/
def ByBase36Sha224NameValue (name : String) : String :=
  let hash := sha224 (strBytes name)
  let base36hash := String.mk ((base36EncodeBytes hash).data.map Char.toLower)
  String.mk (base36hash.data.take 8)

/-- Modelled from the spec: the assembly of the full bound-CRD name (the
caller of ByBase36Sha224NameValue) is not among the given sources; the spec
fixes it as hash + "." + plural + "." + group with the hash computed over
schemaCluster + ":" + schemaName. -/
def boundCRDName (schemaCluster schemaName plural group : String) : String :=
  ByBase36Sha224NameValue (schemaCluster ++ ":" ++ schemaName) ++ "." ++ plural ++ "." ++ group

/-- Follows the words of claim C1: the lowercase base36 encoding of the
sha224 digest of the input, truncated to its first 8 characters. -/
def claimC1Hash (input : String) : String :=
  String.mk ((base36Digits (bytesBEToNat (sha224 (strBytes input)))).take 8)

/-- Follows the words of claim C8: the lowercase base36 encoding of the
first 8 bytes of the sha224 digest of the input. -/
def claimC8Hash (input : String) : String :=
  String.mk (base36Digits (bytesBEToNat ((sha224 (strBytes input)).take 8)))

/-! ## Annotation maps and the extra-annotation merge patch

Model of syncExtraAnnotationPatch. A Go map is an association list with
pairwise-distinct keys; the computed merge patch maps keys to either a new
value or null (modelled as none, meaning delete). -/

/-- An annotation map, as an association list of key-value pairs. -/
abbrev AnnMap := List (String × String)

/-- A JSON merge patch restricted to the annotation object: a key mapped to
none is deleted, a key mapped to some v is set to v. -/
abbrev MergePatch := List (String × Option String)

/-- Go map indexing a[k]: the value stored at a key, if any. -/
def lookupAnn : AnnMap → String → Option String
  | [], _ => none
  | (k0, v) :: t, k => if k0 == k then some v else lookupAnn t k

/-- Indexing into a merge patch. -/
def lookupPatch : MergePatch → String → Option (Option String)
  | [], _ => none
  | (k0, v) :: t, k => if k0 == k then some v else lookupPatch t k

/-- The key set of an annotation map. -/
def annKeys (m : AnnMap) : List String := m.map (fun kv => kv.1)

/-- The key set of a merge patch. -/
def patchKeys (p : MergePatch) : List String := p.map (fun kv => kv.1)

/-- Modelled from the spec: the designated annotation key head
AnnotationAPIExportExtraKeyPrefix (the constant itself lives outside the
given sources; the controller doc comment names extra.api.kcp.io). -/
def extraAnnotationKeyHead : String := "extra.api.kcp.io/"

/-- strings.HasPrefix of the designated key head, bytewise on characters. -/
def isExtraKey (k : String) : Bool := extraAnnotationKeyHead.data.isPrefixOf k.data

/-- First loop of syncExtraAnnotationPatch: override annotations from a1
to a2, recording keys whose value is missing or different on a2. -/
def syncKeep (a2 : AnnMap) (kv : String × String) : Option (String × Option String) :=
  if isExtraKey kv.1 && lookupAnn a2 kv.1 != some kv.2
  then some (kv.1, some kv.2) else none

/-- Second loop of syncExtraAnnotationPatch: remove annotations on a2 that
do not exist on a1 by patching them to null. -/
def syncDrop (a1 : AnnMap) (kv : String × String) : Option (String × Option String) :=
  if isExtraKey kv.1 && (lookupAnn a1 kv.1).isNone
  then some (kv.1, (none : Option String)) else none

/-- The source function syncExtraAnnotationPatch(a1, a2): the merge patch
that makes the prefix annotations of a2 equal to those of a1; an empty
result means nothing is emitted. -/
def syncExtraAnnotationPatch (a1 a2 : AnnMap) : MergePatch :=
  a1.filterMap (syncKeep a2) ++ a2.filterMap (syncDrop a1)

/-- Delete a key from an annotation map. -/
def removeAnn (m : AnnMap) (k : String) : AnnMap := m.filter (fun kv => kv.1 != k)

/-- Set a key on an annotation map. -/
def setAnn (m : AnnMap) (k : String) (v : String) : AnnMap := removeAnn m k ++ [(k, v)]

/-- Apply one merge-patch entry: null deletes the key, a value sets it. -/
def applyEntry (m : AnnMap) (kv : String × Option String) : AnnMap :=
  match kv.2 with
  | some v => setAnn m kv.1 v
  | none => removeAnn m kv.1

/-- Apply a merge patch to an annotation map, entry by entry. -/
def applyMergePatch (m : AnnMap) (p : MergePatch) : AnnMap :=
  p.foldl applyEntry m

/-- Combine a patch lookup with the pre-patch value: a patch entry wins,
otherwise the old value stands. -/
def patchApplied : Option (Option String) → Option String → Option String
  | some x, _ => x
  | none, d => d

/-- The declarative value of the patch at one key, used to characterize
syncExtraAnnotationPatch: nothing outside the designated head; an override
where values differ; a null where the key exists only on a2. -/
def patchSpecAt (a1 a2 : AnnMap) (k : String) : Option (Option String) :=
  if isExtraKey k then
    match lookupAnn a1 k, lookupAnn a2 k with
    | some v, w => if w != some v then some (some v) else none
    | none, some _ => some none
    | none, none => none
  else none

/-- Example export annotations, mirroring the annotation-propagation
scenario of the spec. -/
def exportAnnotationsEx : AnnMap := [("extra.api.kcp.io/foo", "bar")]

/-- Example binding annotations: one stale value, one stale key, one
unrelated annotation. -/
def bindingAnnotationsEx : AnnMap :=
  [("extra.api.kcp.io/foo", "old"), ("extra.api.kcp.io/stale", "x"), ("color", "blue")]

/-! ## Endpoint-slice reconciliation -/

/-- The parsed form of a URL, as far as the reconciler manipulates it:
net/url parsing itself stays an external parameter. -/
structure GoURL where
  scheme : String
  host : String
  path : String
deriving DecidableEq

/-- A shard, with its possibly-empty virtual-workspace URL. -/
structure Shard where
  name : String
  virtualWorkspaceURL : String
deriving DecidableEq

/-- The fields of an APIExport the embedded reconcilers read. -/
structure APIExportObj where
  homeCluster : String
  name : String
  annotations : AnnMap
deriving DecidableEq

/-- A lookup outcome: found is ok, otherwise a NotFound error or any other
error (apierrors.IsNotFound distinguishes exactly these two classes). -/
inductive LookupErr
  | notFound
  | internal (msg : String)
deriving DecidableEq

/-- Insert into a sorted duplicate-free list of strings; models insertion
into sets.String. -/
def stringSetInsert (x : String) : List String → List String
  | [] => [x]
  | y :: ys =>
    if x < y then x :: y :: ys
    else if x = y then y :: ys
    else y :: stringSetInsert x ys

/-- Collect a list of strings into a set and list it sorted, modelling
sets.NewString followed by List. -/
def stringSetList (l : List String) : List String :=
  l.foldl (fun acc x => stringSetInsert x acc) []

/-- Modelled from the spec: the path components appended to a shard URL,
/services/apiexport/{exportHomeCluster}/{exportName}; the two constants
live outside the given sources. -/
def defaultRootPathComponents (exportHomeCluster exportName : String) : List String :=
  ["/services", "apiexport", exportHomeCluster, exportName]

/-- The contribution of one shard to the endpoint set: nothing for an
empty or unparseable URL, otherwise the parsed URL with the virtual
workspace path joined onto its path and re-rendered. -/
def shardEndpointURL (parseURLFn : String → Option GoURL) (renderURLFn : GoURL → String)
    (pathJoinFn : List String → String) (apiExport : APIExportObj) (shard : Shard) :
    Option String :=
  if shard.virtualWorkspaceURL = "" then none
  else
    match parseURLFn shard.virtualWorkspaceURL with
    | none => none
    | some u =>
      some (renderURLFn { u with
        path := pathJoinFn
          (u.path :: defaultRootPathComponents apiExport.homeCluster apiExport.name) })

/-- The source function updateEndpoints: collect every shard contribution
into a set and list it sorted. -/
def updateEndpoints (parseURLFn : String → Option GoURL) (renderURLFn : GoURL → String)
    (pathJoinFn : List String → String) (shards : List Shard)
    (apiExport : APIExportObj) : List String :=
  stringSetList (shards.filterMap
    (shardEndpointURL parseURLFn renderURLFn pathJoinFn apiExport))

/-- Condition type APIExportValid. -/
def APIExportValidCond : String := "APIExportValid"

/-- Condition type APIExportEndpointSliceURLsReady. -/
def APIExportEndpointSliceURLsReadyCond : String := "APIExportEndpointSliceURLsReady"

/-- Condition reason APIExportNotFound. -/
def APIExportNotFoundReason : String := "APIExportNotFound"

/-- Condition reason InternalError. -/
def InternalErrorReason : String := "InternalError"

/-- Condition reason ErrorGeneratingURLs. -/
def ErrorGeneratingURLsReason : String := "ErrorGeneratingURLs"

/-- A status condition: type, boolean status, and reason (empty when the
condition is marked true). -/
structure Condition where
  condType : String
  status : Bool
  reason : String
deriving DecidableEq

/-- Replace the condition of a given type, keeping all others. -/
def setCondition (conds : List Condition) (c : Condition) : List Condition :=
  (conds.filter (fun d => d.condType != c.condType)) ++ [c]

/-- Find the condition of a given type. -/
def getCondition (conds : List Condition) (t : String) : Option Condition :=
  conds.find? (fun d => d.condType == t)

/-- conditions.MarkTrue. -/
def markTrue (conds : List Condition) (t : String) : List Condition :=
  setCondition conds ⟨t, true, ""⟩

/-- conditions.MarkFalse with a reason. -/
def markFalse (conds : List Condition) (t reason : String) : List Condition :=
  setCondition conds ⟨t, false, reason⟩

/-- The fields of an APIExportEndpointSlice the reconciler reads and
writes. -/
structure APIExportEndpointSlice where
  homeCluster : String
  specExportPath : String
  specExportName : String
  statusEndpoints : List String
  conditions : List Condition
deriving DecidableEq

/-- The error returned by the endpoint-slice reconcile: the export lookup
error, or the URL-generation (shard listing) error. -/
inductive ReconcileError
  | exportError (msg : String)
  | urlError (msg : String)
deriving DecidableEq

/-- The source function reconcile of the endpoint-slice reconciler. The
export lookup and the shard listing are parameters; the second component
of the result is the returned error. -/
def reconcileSlice
    (getExport : String → String → Except LookupErr APIExportObj)
    (listShardsRes : Except String (List Shard))
    (parseURLFn : String → Option GoURL) (renderURLFn : GoURL → String)
    (pathJoinFn : List String → String)
    (slice : APIExportEndpointSlice) : APIExportEndpointSlice × Option ReconcileError :=
  let apiExportPath :=
    if slice.specExportPath = "" then slice.homeCluster else slice.specExportPath
  match getExport apiExportPath slice.specExportName with
  | .error .notFound =>
      ({ slice with
          statusEndpoints := [],
          conditions := markFalse slice.conditions APIExportValidCond APIExportNotFoundReason },
       none)
  | .error (.internal msg) =>
      ({ slice with
          conditions := markFalse slice.conditions APIExportValidCond InternalErrorReason },
       some (.exportError msg))
  | .ok apiExport =>
      let s1 := { slice with conditions := markTrue slice.conditions APIExportValidCond }
      match listShardsRes with
      | .error msg =>
          ({ s1 with
              conditions := markFalse s1.conditions APIExportEndpointSliceURLsReadyCond
                ErrorGeneratingURLsReason },
           some (.urlError msg))
      | .ok shards =>
          ({ s1 with
              statusEndpoints := updateEndpoints parseURLFn renderURLFn pathJoinFn shards apiExport,
              conditions := markTrue s1.conditions APIExportEndpointSliceURLsReadyCond },
           none)

/-! ## Two-tier resolvers -/

/-- The getAPIExport closure of the APIBinding controller: local index
first; on any error other than NotFound propagate; on NotFound fall back
to the global index. -/
def getAPIExportTwoTier {α : Type} (localGet globalGet : String → String → Except LookupErr α)
    (path name : String) : Except LookupErr α :=
  match localGet path name with
  | .ok e => .ok e
  | .error .notFound => globalGet path name
  | .error (.internal msg) => .error (.internal msg)

/-- The getAPIResourceSchema closure: local lister first; global fallback
exactly on NotFound; any other outcome is returned as is. -/
def getAPIResourceSchemaTwoTier {α : Type}
    (localGet globalGet : String → String → Except LookupErr α)
    (clusterName name : String) : Except LookupErr α :=
  match localGet clusterName name with
  | .error .notFound => globalGet clusterName name
  | r => r

/-! ## The worker loop -/

/-- The queue operations a worker performs, recorded as a trace. -/
inductive QueueOp
  | getItem
  | doneItem (key : String)
  | addRateLimited (key : String)
  | add (key : String)
  | forget (key : String)
deriving DecidableEq

/-- The source function processNextWorkItem: Get a key (a quit signal ends
the loop); run process, which reports (requeue, error-present); on error
AddRateLimited, else on requeue Add, else Forget; the deferred Done always
runs last. The first component mirrors the boolean return value. -/
def processNextWorkItem (got : Option String) (processFn : String → Bool × Bool) :
    Bool × List QueueOp :=
  match got with
  | none => (false, [QueueOp.getItem])
  | some key =>
    let r := processFn key
    (true,
      [QueueOp.getItem]
        ++ (if r.2 then [QueueOp.addRateLimited key]
            else if r.1 then [QueueOp.add key]
            else [QueueOp.forget key])
        ++ [QueueOp.doneItem key])

/-! ## The extra-annotation controller per-key process function -/

/-- An export reference in a binding spec. -/
structure ExportRef where
  path : String
  name : String
deriving DecidableEq

/-- The fields of an APIBinding the extra-annotation controller reads. -/
structure APIBindingObj where
  clusterName : String
  name : String
  refExport : Option ExportRef
  annotations : AnnMap
deriving DecidableEq

/-- What one process call emits: no write, or a patch submitted to the
binding. -/
inductive ProcessOutcome
  | noPatch
  | patched (p : MergePatch)
deriving DecidableEq

/-- The source function process of the extra-annotation controller, for a
binding already fetched from the lister: a nil export reference returns
success; an empty reference path resolves against the cluster of the
binding; a NotFound export returns success; otherwise the patch is
computed and emitted only when non-empty. -/
def processBindingAnnotationSync
    (getExport : String → String → Except LookupErr APIExportObj)
    (b : APIBindingObj) : Except LookupErr ProcessOutcome :=
  match b.refExport with
  | none => .ok .noPatch
  | some ref =>
    let path := if ref.path = "" then b.clusterName else ref.path
    match getExport path ref.name with
    | .error .notFound => .ok .noPatch
    | .error (.internal msg) => .error (.internal msg)
    | .ok apiExport =>
      let p := syncExtraAnnotationPatch apiExport.annotations b.annotations
      if p.isEmpty then .ok .noPatch else .ok (.patched p)

/-! ## Fixtures for the concrete witnesses -/

/-- A concrete URL parser covering the two shard URLs of the endpoint
computation scenario. -/
def parseURLFx : String → Option GoURL := fun s =>
  if s = "https://s1/" then some ⟨"https", "s1", "/"⟩
  else if s = "https://s2/base" then some ⟨"https", "s2", "/base"⟩
  else none

/-- A concrete URL renderer. -/
def renderURLFx : GoURL → String := fun u => u.scheme ++ "://" ++ u.host ++ u.path

/-- A concrete path-join for the witnesses: plain concatenation of the
components. -/
def pathJoinFx : List String → String := fun parts => parts.foldl (fun a b => a ++ b) ""

/-- Three shards: two with distinct URLs, one with an empty URL. -/
def shardsFx : List Shard := [⟨"s2", "https://s2/base"⟩, ⟨"s1", "https://s1/"⟩, ⟨"s0", ""⟩]

/-- The export resolved by the endpoint-slice witnesses. -/
def exportFx : APIExportObj := ⟨"root:a", "e", []⟩

/-- An endpoint slice referencing the export by explicit path, with stale
status fields to show them being replaced. -/
def sliceFx : APIExportEndpointSlice :=
  ⟨"root:b", "root:a", "e", ["https://stale"], [⟨"APIExportValid", true, ""⟩]⟩

/-- An export getter that finds exactly the witness export. -/
def getExportFx : String → String → Except LookupErr APIExportObj := fun p n =>
  if p = "root:a" then (if n = "e" then .ok exportFx else .error .notFound)
  else .error .notFound

/-- An export getter that never finds anything. -/
def getExportNotFoundFx : String → String → Except LookupErr APIExportObj :=
  fun _ _ => .error .notFound

/-- An export getter that always fails with an error other than NotFound. -/
def getExportBrokenFx : String → String → Except LookupErr APIExportObj :=
  fun _ _ => .error (.internal "cache unavailable")

/-- A binding with no export reference. -/
def bindingNoRefFx : APIBindingObj := ⟨"root:b", "b1", none, []⟩

/-- A binding whose export reference has an empty path. -/
def bindingEmptyPathFx : APIBindingObj :=
  ⟨"root:b", "b2", some ⟨"", "e"⟩, [("color", "blue")]⟩

/-! ## Theorems: SHA-224 fidelity -/

/-- FIPS 180-4 test vector: SHA-224 of the empty message. -/
theorem sha224_empty_vector :
    hexOfBytes (sha224 (strBytes "")) =
      "d14a028c2a3a2bc9476102bb288234c415a2b01f828ea62ac5b3e42f" := by decide

/-- FIPS 180-4 test vector: SHA-224 of the three-byte message abc. -/
theorem sha224_abc_vector :
    hexOfBytes (sha224 (strBytes "abc")) =
      "23097d223405d8228642a477bda255b32aadbce4bda0b3f7e36c9da7" := by decide

/-! ## Theorems: base36 and the bound-CRD name -/

/-- Every base36 digit character is drawn from the base36 alphabet. -/
theorem base36DigitChar_mem (k : Nat) : base36DigitChar k ∈ base36Alphabet := by
  unfold base36DigitChar List.getD
  cases h : base36Alphabet.get? k with
  | none => simp only [h, Option.getD_none]; decide
  | some c => simpa only [h, Option.getD_some] using List.get?_mem h

/-- Every character produced by the digit-extraction loop comes from the
base36 alphabet or from the starting accumulator. -/
theorem base36DigitsGo_chars (fuel : Nat) :
    ∀ (n : Nat) (acc : List Char),
      ∀ c ∈ base36DigitsGo fuel n acc, c ∈ base36Alphabet ∨ c ∈ acc := by
  induction fuel with
  | zero => intro n acc c hc; simp only [base36DigitsGo] at hc; exact Or.inr hc
  | succ fuel ih =>
    intro n acc c hc
    simp only [base36DigitsGo] at hc
    split at hc
    · exact Or.inr hc
    · rcases ih _ _ c hc with h | h
      · exact Or.inl h
      · rcases List.mem_cons.mp h with h | h
        · exact Or.inl (h ▸ base36DigitChar_mem (n % 36))
        · exact Or.inr h

/-- Every character of a base36 rendering is a base36 alphabet character. -/
theorem base36Digits_chars (n : Nat) : ∀ c ∈ base36Digits n, c ∈ base36Alphabet := by
  intro c hc
  unfold base36Digits at hc
  split at hc
  · rcases List.mem_singleton.mp hc with rfl
    decide
  · rcases base36DigitsGo_chars _ _ _ c hc with h | h
    · exact h
    · exact absurd h (List.not_mem_nil c)

/-- On the base36 alphabet, uppercasing then lowercasing is the identity. -/
theorem alphabet_upper_lower (c : Char) (h : c ∈ base36Alphabet) :
    Char.toLower (Char.toUpper c) = c := by
  fin_cases h <;> decide

/-- No base36 alphabet character is uppercase. -/
theorem alphabet_not_upper (c : Char) (h : c ∈ base36Alphabet) : c.isUpper = false := by
  fin_cases h <;> decide

/-- The source hash component equals the claim C1 formula: lowercase base36
of the full sha224 digest, truncated to the first 8 characters. -/
theorem hash_component_eq (input : String) :
    ByBase36Sha224NameValue input = claimC1Hash input := by
  simp only [ByBase36Sha224NameValue, claimC1Hash, base36EncodeBytes]
  congr 1
  rw [List.map_map]
  have h2 : ∀ c ∈ base36Digits (bytesBEToNat (sha224 (strBytes input))),
      (Char.toLower ∘ Char.toUpper) c = id c :=
    fun c hc => alphabet_upper_lower c (base36Digits_chars _ c hc)
  rw [List.map_congr_left h2, List.map_id]

/-- Claim C1: the hash component of a bound-CRD name is, for any input
string, the lowercase base36 encoding of the sha224 digest of the input
truncated to its first 8 characters; the full name is
hash ++ "." ++ plural ++ "." ++ group; the hash component contains no
uppercase character; and the computation is a pure function of its input,
so recomputing on the same input yields an identical result. -/
theorem c1_hash_component_formula
    (input schemaCluster schemaName plural group : String) :
    ByBase36Sha224NameValue input = claimC1Hash input
    ∧ boundCRDName schemaCluster schemaName plural group
        = claimC1Hash (schemaCluster ++ ":" ++ schemaName) ++ "." ++ plural ++ "." ++ group
    ∧ (∀ c ∈ (ByBase36Sha224NameValue input).data, c.isUpper = false)
    ∧ ByBase36Sha224NameValue input = ByBase36Sha224NameValue input := by
  refine ⟨hash_component_eq input, ?_, ?_, rfl⟩
  · unfold boundCRDName
    rw [hash_component_eq]
  · intro c hc
    rw [hash_component_eq] at hc
    have hc' : c ∈ (base36Digits (bytesBEToNat (sha224 (strBytes input)))).take 8 := hc
    exact alphabet_not_upper c
      (base36Digits_chars _ c (List.take_subset 8 _ hc'))

/-- Claim C1 witness: the formula, the name assembly, and the lowercase
property at the concrete input root:widgets. -/
theorem c1_hash_component_formula_witness :
    ByBase36Sha224NameValue "root:widgets" = claimC1Hash "root:widgets"
    ∧ boundCRDName "root" "widgets" "widgets" "example.io"
        = claimC1Hash ("root" ++ ":" ++ "widgets") ++ "." ++ "widgets" ++ "." ++ "example.io"
    ∧ ByBase36Sha224NameValue "root:widgets" = "cl4a5ptt" :=
  ⟨(c1_hash_component_formula "root:widgets" "root" "widgets" "widgets" "example.io").1,
   (c1_hash_component_formula "root:widgets" "root" "widgets" "widgets" "example.io").2.1,
   by decide⟩

/-- Claim C8 counterexample: at the concrete input root:widgets, the
lowercase base36 encoding of the first 8 bytes of the sha224 digest is not
the hash component the code computes (the code base36-encodes the full
28-byte digest and keeps the first 8 characters of that encoding). -/
theorem c8_first8bytes_counterexample :
    claimC8Hash "root:widgets" ≠ ByBase36Sha224NameValue "root:widgets" := by decide

/-- Claim C8 (amended): the hash component equals the first 8 characters
of the lowercase base36 encoding of the full sha224 digest of
homeCluster ++ ":" ++ schemaName, and the bound-CRD name concatenates it
with "." ++ plural ++ "." ++ group. -/
theorem c8_amended_full_digest (schemaCluster schemaName plural group : String) :
    ByBase36Sha224NameValue (schemaCluster ++ ":" ++ schemaName)
        = String.mk (((base36Digits
            (bytesBEToNat (sha224 (strBytes (schemaCluster ++ ":" ++ schemaName))))).take 8))
    ∧ boundCRDName schemaCluster schemaName plural group
        = ByBase36Sha224NameValue (schemaCluster ++ ":" ++ schemaName)
            ++ "." ++ plural ++ "." ++ group :=
  ⟨hash_component_eq _, rfl⟩

/-! ## Theorems: annotation maps and the extra-annotation patch -/

theorem lookupAnn_eq_none_iff (m : AnnMap) (k : String) :
    lookupAnn m k = none ↔ k ∉ annKeys m := by
  induction m with
  | nil => simp [lookupAnn, annKeys]
  | cons kv t ih =>
    obtain ⟨k0, v⟩ := kv
    by_cases h : k0 = k
    · subst h
      simp [lookupAnn, annKeys]
    · simp only [lookupAnn, annKeys, List.map_cons, List.mem_cons]
      rw [if_neg (by simpa using h)]
      rw [ih]
      unfold annKeys
      constructor
      · intro hn hmem
        rcases hmem with hmem | hmem
        · exact h hmem.symm
        · exact hn hmem
      · intro hn hmem
        exact hn (Or.inr hmem)

theorem lookupAnn_of_mem (m : AnnMap) (k : String) (v : String)
    (hnd : (annKeys m).Nodup) (hmem : (k, v) ∈ m) : lookupAnn m k = some v := by
  induction m with
  | nil => cases hmem
  | cons kv t ih =>
    obtain ⟨ka, va⟩ := kv
    rcases List.mem_cons.mp hmem with h | h
    · injection h with h1 h2
      subst h1
      subst h2
      simp [lookupAnn]
    · have hk : ka ≠ k := by
        intro hkk
        subst hkk
        have : ka ∈ annKeys t := List.mem_map.mpr ⟨(ka, v), h, rfl⟩
        exact (List.nodup_cons.mp hnd).1 this
      simp only [lookupAnn]
      rw [if_neg (by simpa using hk)]
      exact ih (List.nodup_cons.mp hnd).2 h

theorem mem_of_lookupAnn_eq_some (m : AnnMap) (k : String) (v : String)
    (h : lookupAnn m k = some v) : (k, v) ∈ m := by
  induction m with
  | nil => cases h
  | cons kv t ih =>
    obtain ⟨ka, va⟩ := kv
    by_cases hk : ka = k
    · subst hk
      simp only [lookupAnn, beq_self_eq_true, if_true] at h
      injection h with h1
      subst h1
      exact List.mem_cons_self _ _
    · simp only [lookupAnn] at h
      rw [if_neg (by simpa using hk)] at h
      exact List.mem_cons_of_mem _ (ih h)

theorem lookupPatch_append (p q : MergePatch) (k : String) :
    lookupPatch (p ++ q) k = (lookupPatch p k).or (lookupPatch q k) := by
  induction p with
  | nil => simp [lookupPatch]
  | cons kv t ih =>
    obtain ⟨k0, v0⟩ := kv
    by_cases h : k0 = k
    · subst h
      simp [lookupPatch]
    · have e1 : lookupPatch (((k0, v0) :: t) ++ q) k = lookupPatch (t ++ q) k := by
        simp [lookupPatch, h]
      have e2 : lookupPatch ((k0, v0) :: t) k = lookupPatch t k := by
        simp [lookupPatch, h]
      rw [e1, e2, ih]

theorem lookupPatch_syncKeep_none (a1 a2 : AnnMap) (k : String)
    (h : lookupAnn a1 k = none) :
    lookupPatch (a1.filterMap (syncKeep a2)) k = none := by
  induction a1 with
  | nil => rfl
  | cons kv t ih =>
    obtain ⟨ka, va⟩ := kv
    have hk : (ka == k) = false := by
      by_cases hh : ka = k
      · subst hh
        simp [lookupAnn] at h
      · simpa using hh
    have ht : lookupAnn t k = none := by
      simpa [lookupAnn, hk] using h
    by_cases hc : (isExtraKey ka && lookupAnn a2 ka != some va) = true
    · have hf : syncKeep a2 (ka, va) = some (ka, some va) := by
        simp [syncKeep, hc]
      rw [List.filterMap_cons_some hf]
      simpa [lookupPatch, hk] using ih ht
    · have hf : syncKeep a2 (ka, va) = none := by
        simp only [syncKeep]
        rw [if_neg (by simpa using hc)]
      rw [List.filterMap_cons_none hf]
      exact ih ht

theorem lookupPatch_syncDrop_none (a1 a2 : AnnMap) (k : String)
    (h : lookupAnn a2 k = none) :
    lookupPatch (a2.filterMap (syncDrop a1)) k = none := by
  induction a2 with
  | nil => rfl
  | cons kv t ih =>
    obtain ⟨ka, va⟩ := kv
    have hk : (ka == k) = false := by
      by_cases hh : ka = k
      · subst hh
        simp [lookupAnn] at h
      · simpa using hh
    have ht : lookupAnn t k = none := by
      simpa [lookupAnn, hk] using h
    by_cases hc : (isExtraKey ka && (lookupAnn a1 ka).isNone) = true
    · have hf : syncDrop a1 (ka, va) = some (ka, none) := by
        simp [syncDrop, hc]
      rw [List.filterMap_cons_some hf]
      simpa [lookupPatch, hk] using ih ht
    · have hf : syncDrop a1 (ka, va) = none := by
        simp only [syncDrop]
        rw [if_neg (by simpa using hc)]
      rw [List.filterMap_cons_none hf]
      exact ih ht

theorem lookupPatch_syncKeep (a1 a2 : AnnMap) (k : String)
    (hnd : (annKeys a1).Nodup) :
    lookupPatch (a1.filterMap (syncKeep a2)) k =
      match lookupAnn a1 k with
      | some v =>
        if isExtraKey k && lookupAnn a2 k != some v then some (some v) else none
      | none => none := by
  induction a1 with
  | nil => rfl
  | cons kv t ih =>
    obtain ⟨ka, va⟩ := kv
    have hnd1 : ka ∉ annKeys t := (List.nodup_cons.mp hnd).1
    have hnd2 : (annKeys t).Nodup := (List.nodup_cons.mp hnd).2
    by_cases hk : ka = k
    · subst hk
      have hla : lookupAnn ((ka, va) :: t) ka = some va := by
        simp [lookupAnn]
      rw [hla]
      have htnone : lookupAnn t ka = none := (lookupAnn_eq_none_iff t ka).mpr hnd1
      by_cases hc : (isExtraKey ka && lookupAnn a2 ka != some va) = true
      · have hf : syncKeep a2 (ka, va) = some (ka, some va) := by
          simp [syncKeep, hc]
        rw [List.filterMap_cons_some hf]
        simp [lookupPatch, hc]
      · have hc' : (isExtraKey ka && lookupAnn a2 ka != some va) = false := by
          simpa using hc
        have hf : syncKeep a2 (ka, va) = none := by
          simp [syncKeep, hc']
        rw [List.filterMap_cons_none hf]
        simpa [hc'] using lookupPatch_syncKeep_none t a2 ka htnone
    · have hla : lookupAnn ((ka, va) :: t) k = lookupAnn t k := by
        simp [lookupAnn, hk]
      rw [hla]
      by_cases hc : (isExtraKey ka && lookupAnn a2 ka != some va) = true
      · have hf : syncKeep a2 (ka, va) = some (ka, some va) := by
          simp [syncKeep, hc]
        rw [List.filterMap_cons_some hf]
        have : lookupPatch ((ka, some va) :: t.filterMap (syncKeep a2)) k
            = lookupPatch (t.filterMap (syncKeep a2)) k := by
          simp [lookupPatch, hk]
        rw [this]
        exact ih hnd2
      · have hf : syncKeep a2 (ka, va) = none := by
          simp only [syncKeep]
          rw [if_neg (by simpa using hc)]
        rw [List.filterMap_cons_none hf]
        exact ih hnd2

theorem lookupPatch_syncDrop (a1 a2 : AnnMap) (k : String)
    (hnd : (annKeys a2).Nodup) :
    lookupPatch (a2.filterMap (syncDrop a1)) k =
      match lookupAnn a2 k with
      | some _ =>
        if isExtraKey k && (lookupAnn a1 k).isNone then some none else none
      | none => none := by
  induction a2 with
  | nil => rfl
  | cons kv t ih =>
    obtain ⟨ka, va⟩ := kv
    have hnd1 : ka ∉ annKeys t := (List.nodup_cons.mp hnd).1
    have hnd2 : (annKeys t).Nodup := (List.nodup_cons.mp hnd).2
    by_cases hk : ka = k
    · subst hk
      have hla : lookupAnn ((ka, va) :: t) ka = some va := by
        simp [lookupAnn]
      rw [hla]
      have htnone : lookupAnn t ka = none := (lookupAnn_eq_none_iff t ka).mpr hnd1
      by_cases hc : (isExtraKey ka && (lookupAnn a1 ka).isNone) = true
      · have hf : syncDrop a1 (ka, va) = some (ka, none) := by
          simp [syncDrop, hc]
        rw [List.filterMap_cons_some hf]
        simp [lookupPatch, hc]
      · have hc' : (isExtraKey ka && (lookupAnn a1 ka).isNone) = false := by
          revert hc
          cases isExtraKey ka && (lookupAnn a1 ka).isNone <;> simp
        have hf : syncDrop a1 (ka, va) = none := by
          simp [syncDrop, hc']
        rw [List.filterMap_cons_none hf]
        simpa [hc'] using lookupPatch_syncDrop_none a1 t ka htnone
    · have hla : lookupAnn ((ka, va) :: t) k = lookupAnn t k := by
        simp [lookupAnn, hk]
      rw [hla]
      by_cases hc : (isExtraKey ka && (lookupAnn a1 ka).isNone) = true
      · have hf : syncDrop a1 (ka, va) = some (ka, none) := by
          simp [syncDrop, hc]
        rw [List.filterMap_cons_some hf]
        have : lookupPatch ((ka, (none : Option String)) :: t.filterMap (syncDrop a1)) k
            = lookupPatch (t.filterMap (syncDrop a1)) k := by
          simp [lookupPatch, hk]
        rw [this]
        exact ih hnd2
      · have hf : syncDrop a1 (ka, va) = none := by
          simp only [syncDrop]
          rw [if_neg (by simpa using hc)]
        rw [List.filterMap_cons_none hf]
        exact ih hnd2

theorem lookupPatch_sync (a1 a2 : AnnMap)
    (h1 : (annKeys a1).Nodup) (h2 : (annKeys a2).Nodup) (k : String) :
    lookupPatch (syncExtraAnnotationPatch a1 a2) k = patchSpecAt a1 a2 k := by
  unfold syncExtraAnnotationPatch
  rw [lookupPatch_append, lookupPatch_syncKeep a1 a2 k h1, lookupPatch_syncDrop a1 a2 k h2]
  unfold patchSpecAt
  cases he : isExtraKey k with
  | false =>
    cases ha1 : lookupAnn a1 k <;> cases ha2 : lookupAnn a2 k <;> simp [he]
  | true =>
    cases ha1 : lookupAnn a1 k with
    | none => cases ha2 : lookupAnn a2 k <;> simp [he]
    | some v =>
      cases ha2 : lookupAnn a2 k with
      | none => simp [he]
      | some w =>
        by_cases hv : w = v
        · subst hv
          simp [he]
        · simp [he, hv]

theorem lookupAnn_append (m1 m2 : AnnMap) (k : String) :
    lookupAnn (m1 ++ m2) k = (lookupAnn m1 k).or (lookupAnn m2 k) := by
  induction m1 with
  | nil => simp [lookupAnn]
  | cons kv t ih =>
    obtain ⟨k0, v0⟩ := kv
    by_cases h : k0 = k
    · subst h
      simp [lookupAnn]
    · have e1 : lookupAnn (((k0, v0) :: t) ++ m2) k = lookupAnn (t ++ m2) k := by
        simp [lookupAnn, h]
      have e2 : lookupAnn ((k0, v0) :: t) k = lookupAnn t k := by
        simp [lookupAnn, h]
      rw [e1, e2, ih]

theorem lookupAnn_removeAnn (m : AnnMap) (k k' : String) :
    lookupAnn (removeAnn m k) k' = if k' = k then none else lookupAnn m k' := by
  induction m with
  | nil => simp [removeAnn, lookupAnn]
  | cons kv t ih =>
    obtain ⟨k0, v0⟩ := kv
    by_cases hke : k0 = k
    · subst hke
      have : removeAnn ((k0, v0) :: t) k0 = removeAnn t k0 := by
        simp [removeAnn]
      rw [this, ih]
      by_cases h' : k' = k0
      · simp [h']
      · simp [h', lookupAnn, Ne.symm h']
    · have : removeAnn ((k0, v0) :: t) k = (k0, v0) :: removeAnn t k := by
        simp [removeAnn, hke]
      rw [this]
      by_cases h' : k' = k0
      · subst h'
        simp [lookupAnn, hke]
      · have e1 : lookupAnn ((k0, v0) :: removeAnn t k) k' = lookupAnn (removeAnn t k) k' := by
          simp [lookupAnn, Ne.symm h']
        have e2 : lookupAnn ((k0, v0) :: t) k' = lookupAnn t k' := by
          simp [lookupAnn, Ne.symm h']
        rw [e1, e2, ih]

theorem lookupAnn_setAnn (m : AnnMap) (k v : String) (k' : String) :
    lookupAnn (setAnn m k v) k' = if k' = k then some v else lookupAnn m k' := by
  unfold setAnn
  rw [lookupAnn_append, lookupAnn_removeAnn]
  by_cases h : k' = k
  · simp [h, lookupAnn]
  · simp [h, lookupAnn, Ne.symm h, Option.or_none]

theorem lookupAnn_applyEntry (m : AnnMap) (kv : String × Option String) (k' : String) :
    lookupAnn (applyEntry m kv) k' = if k' = kv.1 then kv.2 else lookupAnn m k' := by
  obtain ⟨k0, x⟩ := kv
  cases x with
  | some v => simpa [applyEntry] using lookupAnn_setAnn m k0 v k'
  | none => simpa [applyEntry] using lookupAnn_removeAnn m k0 k'

theorem lookupAnn_applyPatch_notMem (p : MergePatch) :
    ∀ (m : AnnMap) (k : String), k ∉ patchKeys p →
      lookupAnn (applyMergePatch m p) k = lookupAnn m k := by
  induction p with
  | nil => intro m k _; rfl
  | cons kv t ih =>
    intro m k hk
    have hk1 : k ≠ kv.1 := by
      intro h
      exact hk (by simp [patchKeys, h])
    have hk2 : k ∉ patchKeys t := by
      intro h
      exact hk (by simp [patchKeys] at h ⊢; exact Or.inr h)
    have hstep : applyMergePatch m (kv :: t) = applyMergePatch (applyEntry m kv) t := rfl
    rw [hstep, ih _ _ hk2, lookupAnn_applyEntry, if_neg hk1]

theorem lookupAnn_applyPatch (p : MergePatch) :
    ∀ (m : AnnMap) (k : String), (patchKeys p).Nodup →
      lookupAnn (applyMergePatch m p) k
        = patchApplied (lookupPatch p k) (lookupAnn m k) := by
  induction p with
  | nil => intro m k _; rfl
  | cons kv t ih =>
    intro m k hnd
    obtain ⟨k0, x⟩ := kv
    have hstep : applyMergePatch m ((k0, x) :: t) = applyMergePatch (applyEntry m (k0, x)) t := rfl
    by_cases hk : k0 = k
    · subst hk
      have hnot : k0 ∉ patchKeys t := (List.nodup_cons.mp hnd).1
      rw [hstep, lookupAnn_applyPatch_notMem t _ _ hnot, lookupAnn_applyEntry]
      simp [lookupPatch, patchApplied]
    · rw [hstep, ih _ _ (List.nodup_cons.mp hnd).2, lookupAnn_applyEntry]
      have e1 : lookupPatch ((k0, x) :: t) k = lookupPatch t k := by
        simp [lookupPatch, hk]
      rw [e1, if_neg (Ne.symm hk)]

theorem annKeys_removeAnn_nodup (m : AnnMap) (k : String)
    (h : (annKeys m).Nodup) : (annKeys (removeAnn m k)).Nodup := by
  have hsub : (removeAnn m k).Sublist m := List.filter_sublist m
  have hsub2 := List.Sublist.map (fun kv : String × String => kv.1) hsub
  exact hsub2.nodup h

theorem not_mem_annKeys_removeAnn (m : AnnMap) (k : String) :
    k ∉ annKeys (removeAnn m k) := by
  intro h
  obtain ⟨kv, hkv, hfst⟩ := List.mem_map.mp h
  have := List.of_mem_filter hkv
  simp only [bne_iff_ne] at this
  exact this hfst

theorem annKeys_setAnn_nodup (m : AnnMap) (k v : String)
    (h : (annKeys m).Nodup) : (annKeys (setAnn m k v)).Nodup := by
  unfold setAnn
  have : annKeys (removeAnn m k ++ [(k, v)]) = annKeys (removeAnn m k) ++ [k] := by
    simp [annKeys]
  rw [this]
  refine List.Nodup.append (annKeys_removeAnn_nodup m k h) (List.nodup_singleton k) ?_
  intro a ha hb
  rcases List.mem_singleton.mp hb with rfl
  exact not_mem_annKeys_removeAnn m a ha

theorem annKeys_applyEntry_nodup (m : AnnMap) (kv : String × Option String)
    (h : (annKeys m).Nodup) : (annKeys (applyEntry m kv)).Nodup := by
  obtain ⟨k0, x⟩ := kv
  cases x with
  | some v => exact annKeys_setAnn_nodup m k0 v h
  | none => exact annKeys_removeAnn_nodup m k0 h

theorem annKeys_applyPatch_nodup (p : MergePatch) :
    ∀ (m : AnnMap), (annKeys m).Nodup → (annKeys (applyMergePatch m p)).Nodup := by
  induction p with
  | nil => intro m h; exact h
  | cons kv t ih =>
    intro m h
    exact ih _ (annKeys_applyEntry_nodup m kv h)

theorem patchKeys_syncKeep_sublist (a1 a2 : AnnMap) :
    (patchKeys (a1.filterMap (syncKeep a2))).Sublist (annKeys a1) := by
  induction a1 with
  | nil => simp [patchKeys, annKeys]
  | cons kv t ih =>
    obtain ⟨ka, va⟩ := kv
    by_cases hc : (isExtraKey ka && lookupAnn a2 ka != some va) = true
    · have hf : syncKeep a2 (ka, va) = some (ka, some va) := by
        simp [syncKeep, hc]
      rw [List.filterMap_cons_some hf]
      exact List.Sublist.cons₂ ka ih
    · have hc' : (isExtraKey ka && lookupAnn a2 ka != some va) = false := by
        revert hc
        cases isExtraKey ka && lookupAnn a2 ka != some va <;> simp
      have hf : syncKeep a2 (ka, va) = none := by
        simp [syncKeep, hc']
      rw [List.filterMap_cons_none hf]
      exact List.Sublist.cons ka ih

theorem patchKeys_syncDrop_sublist (a1 a2 : AnnMap) :
    (patchKeys (a2.filterMap (syncDrop a1))).Sublist (annKeys a2) := by
  induction a2 with
  | nil => simp [patchKeys, annKeys]
  | cons kv t ih =>
    obtain ⟨ka, va⟩ := kv
    by_cases hc : (isExtraKey ka && (lookupAnn a1 ka).isNone) = true
    · have hf : syncDrop a1 (ka, va) = some (ka, none) := by
        simp [syncDrop, hc]
      rw [List.filterMap_cons_some hf]
      exact List.Sublist.cons₂ ka ih
    · have hc' : (isExtraKey ka && (lookupAnn a1 ka).isNone) = false := by
        revert hc
        cases isExtraKey ka && (lookupAnn a1 ka).isNone <;> simp
      have hf : syncDrop a1 (ka, va) = none := by
        simp [syncDrop, hc']
      rw [List.filterMap_cons_none hf]
      exact List.Sublist.cons ka ih

theorem mem_patchKeys_syncDrop (a1 a2 : AnnMap) (k : String)
    (h : k ∈ patchKeys (a2.filterMap (syncDrop a1))) : lookupAnn a1 k = none := by
  obtain ⟨r, hr, hfst⟩ := List.mem_map.mp h
  obtain ⟨kv, _, hf⟩ := List.mem_filterMap.mp hr
  by_cases hc : (isExtraKey kv.1 && (lookupAnn a1 kv.1).isNone) = true
  · have hr1 : r = (kv.1, none) := by
      have : syncDrop a1 kv = some (kv.1, none) := by
        simp [syncDrop, hc]
      rw [this] at hf
      injection hf with h1
      exact h1.symm
    have h2 : (lookupAnn a1 kv.1).isNone = true := (Bool.and_eq_true _ _ |>.mp hc).2
    have hkk : k = kv.1 := by
      rw [hr1] at hfst
      exact hfst.symm
    rw [hkk]
    exact Option.isNone_iff_eq_none.mp h2
  · have hc' : (isExtraKey kv.1 && (lookupAnn a1 kv.1).isNone) = false := by
      revert hc
      cases isExtraKey kv.1 && (lookupAnn a1 kv.1).isNone <;> simp
    have : syncDrop a1 kv = none := by
      simp [syncDrop, hc']
    rw [this] at hf
    cases hf

theorem sync_patch_keys_nodup (a1 a2 : AnnMap)
    (h1 : (annKeys a1).Nodup) (h2 : (annKeys a2).Nodup) :
    (patchKeys (syncExtraAnnotationPatch a1 a2)).Nodup := by
  unfold syncExtraAnnotationPatch
  have hsplit : patchKeys (a1.filterMap (syncKeep a2) ++ a2.filterMap (syncDrop a1))
      = patchKeys (a1.filterMap (syncKeep a2)) ++ patchKeys (a2.filterMap (syncDrop a1)) := by
    simp [patchKeys]
  rw [hsplit]
  refine List.Nodup.append ((patchKeys_syncKeep_sublist a1 a2).nodup h1)
    ((patchKeys_syncDrop_sublist a1 a2).nodup h2) ?_
  intro k hk1 hk2
  have hmem : k ∈ annKeys a1 := (patchKeys_syncKeep_sublist a1 a2).subset hk1
  have hnone : lookupAnn a1 k = none := mem_patchKeys_syncDrop a1 a2 k hk2
  exact ((lookupAnn_eq_none_iff a1 k).mp hnone) hmem

theorem applyPatch_sync_extra (a1 a2 : AnnMap)
    (h1 : (annKeys a1).Nodup) (h2 : (annKeys a2).Nodup) (k : String)
    (he : isExtraKey k = true) :
    lookupAnn (applyMergePatch a2 (syncExtraAnnotationPatch a1 a2)) k = lookupAnn a1 k := by
  rw [lookupAnn_applyPatch _ _ _ (sync_patch_keys_nodup a1 a2 h1 h2),
    lookupPatch_sync a1 a2 h1 h2]
  unfold patchSpecAt
  cases ha1 : lookupAnn a1 k with
  | some v =>
    cases ha2 : lookupAnn a2 k with
    | none => simp [he, patchApplied]
    | some w =>
      by_cases hw : w = v
      · subst hw
        simp [he, patchApplied, ha2]
      · simp [he, patchApplied, hw]
  | none =>
    cases ha2 : lookupAnn a2 k with
    | some w => simp [he, patchApplied]
    | none => simp [he, patchApplied, ha2]

theorem applyPatch_sync_nonextra (a1 a2 : AnnMap)
    (h1 : (annKeys a1).Nodup) (h2 : (annKeys a2).Nodup) (k : String)
    (he : isExtraKey k = false) :
    lookupAnn (applyMergePatch a2 (syncExtraAnnotationPatch a1 a2)) k = lookupAnn a2 k := by
  rw [lookupAnn_applyPatch _ _ _ (sync_patch_keys_nodup a1 a2 h1 h2),
    lookupPatch_sync a1 a2 h1 h2]
  unfold patchSpecAt
  simp [he, patchApplied]

theorem sync_mem_extra (a1 a2 : AnnMap) :
    ∀ kv ∈ syncExtraAnnotationPatch a1 a2, isExtraKey kv.1 = true := by
  intro r hr
  rcases List.mem_append.mp hr with h | h
  · obtain ⟨kv, _, hf⟩ := List.mem_filterMap.mp h
    by_cases hc : (isExtraKey kv.1 && lookupAnn a2 kv.1 != some kv.2) = true
    · have : syncKeep a2 kv = some (kv.1, some kv.2) := by
        simp [syncKeep, hc]
      rw [this] at hf
      injection hf with h1
      rw [← h1]
      exact (Bool.and_eq_true _ _ |>.mp hc).1
    · have hc' : (isExtraKey kv.1 && lookupAnn a2 kv.1 != some kv.2) = false := by
        revert hc
        cases isExtraKey kv.1 && lookupAnn a2 kv.1 != some kv.2 <;> simp
      have : syncKeep a2 kv = none := by
        simp [syncKeep, hc']
      rw [this] at hf
      cases hf
  · obtain ⟨kv, _, hf⟩ := List.mem_filterMap.mp h
    by_cases hc : (isExtraKey kv.1 && (lookupAnn a1 kv.1).isNone) = true
    · have : syncDrop a1 kv = some (kv.1, none) := by
        simp [syncDrop, hc]
      rw [this] at hf
      injection hf with h1
      rw [← h1]
      exact (Bool.and_eq_true _ _ |>.mp hc).1
    · have hc' : (isExtraKey kv.1 && (lookupAnn a1 kv.1).isNone) = false := by
        revert hc
        cases isExtraKey kv.1 && (lookupAnn a1 kv.1).isNone <;> simp
      have : syncDrop a1 kv = none := by
        simp [syncDrop, hc']
      rw [this] at hf
      cases hf

theorem sync_null_iff (a1 a2 : AnnMap)
    (h1 : (annKeys a1).Nodup) (h2 : (annKeys a2).Nodup) (k : String) :
    lookupPatch (syncExtraAnnotationPatch a1 a2) k = some none ↔
      isExtraKey k = true ∧ lookupAnn a1 k = none ∧ lookupAnn a2 k ≠ none := by
  rw [lookupPatch_sync a1 a2 h1 h2]
  unfold patchSpecAt
  cases he : isExtraKey k with
  | false =>
    cases ha1 : lookupAnn a1 k <;> cases ha2 : lookupAnn a2 k <;> simp [he]
  | true =>
    cases ha1 : lookupAnn a1 k with
    | some v =>
      cases ha2 : lookupAnn a2 k with
      | none => simp [he]
      | some w =>
        by_cases hw : w = v
        · subst hw
          simp [he]
        · simp [he, hw]
    | none =>
      cases ha2 : lookupAnn a2 k with
      | some w => simp [he, ha2]
      | none => simp [he]

theorem sync_empty_iff (a1 a2 : AnnMap)
    (h1 : (annKeys a1).Nodup) (h2 : (annKeys a2).Nodup) :
    syncExtraAnnotationPatch a1 a2 = [] ↔
      ∀ k, isExtraKey k = true → lookupAnn a1 k = lookupAnn a2 k := by
  constructor
  · intro hp k he
    have hchar := lookupPatch_sync a1 a2 h1 h2 k
    rw [hp] at hchar
    have hnone : patchSpecAt a1 a2 k = none := hchar.symm
    unfold patchSpecAt at hnone
    rw [he] at hnone
    simp only [if_true] at hnone
    cases ha1 : lookupAnn a1 k with
    | some v =>
      cases ha2 : lookupAnn a2 k with
      | some w =>
        rw [ha1, ha2] at hnone
        by_cases hw : w = v
        · rw [hw]
        · simp [hw] at hnone
      | none =>
        rw [ha1, ha2] at hnone
        simp at hnone
    | none =>
      cases ha2 : lookupAnn a2 k with
      | some w =>
        rw [ha1, ha2] at hnone
        simp at hnone
      | none => rfl
  · intro heq
    unfold syncExtraAnnotationPatch
    rw [List.append_eq_nil]
    constructor
    · rw [List.filterMap_eq_nil_iff]
      intro kv hkv
      cases he : isExtraKey kv.1 with
      | false => simp [syncKeep, he]
      | true =>
        have hleft : lookupAnn a1 kv.1 = some kv.2 :=
          lookupAnn_of_mem a1 kv.1 kv.2 h1 hkv
        have : lookupAnn a2 kv.1 = some kv.2 := by
          rw [← heq kv.1 he]
          exact hleft
        simp [syncKeep, he, this]
    · rw [List.filterMap_eq_nil_iff]
      intro kv hkv
      cases he : isExtraKey kv.1 with
      | false => simp [syncDrop, he]
      | true =>
        have hright : lookupAnn a2 kv.1 = some kv.2 :=
          lookupAnn_of_mem a2 kv.1 kv.2 h2 hkv
        have : lookupAnn a1 kv.1 = some kv.2 := by
          rw [heq kv.1 he]
          exact hright
        simp [syncDrop, he, this]

/-- Claim C3: applying the computed merge patch to the binding makes its
prefix annotations equal to those of the export; non-prefix annotations
are untouched; every patch entry carries a prefix key; keys to delete are
exactly the stale prefix keys, patched with null; and the patch is empty
exactly when no change is needed. -/
theorem c3_sync_patch_correct (a1 a2 : AnnMap)
    (h1 : (annKeys a1).Nodup) (h2 : (annKeys a2).Nodup) :
    (∀ k, isExtraKey k = true →
        lookupAnn (applyMergePatch a2 (syncExtraAnnotationPatch a1 a2)) k = lookupAnn a1 k)
    ∧ (∀ k, isExtraKey k = false →
        lookupAnn (applyMergePatch a2 (syncExtraAnnotationPatch a1 a2)) k = lookupAnn a2 k)
    ∧ (∀ kv ∈ syncExtraAnnotationPatch a1 a2, isExtraKey kv.1 = true)
    ∧ (∀ k, lookupPatch (syncExtraAnnotationPatch a1 a2) k = some none ↔
        isExtraKey k = true ∧ lookupAnn a1 k = none ∧ lookupAnn a2 k ≠ none)
    ∧ (syncExtraAnnotationPatch a1 a2 = [] ↔
        ∀ k, isExtraKey k = true → lookupAnn a1 k = lookupAnn a2 k) :=
  ⟨fun k he => applyPatch_sync_extra a1 a2 h1 h2 k he,
   fun k he => applyPatch_sync_nonextra a1 a2 h1 h2 k he,
   sync_mem_extra a1 a2,
   fun k => sync_null_iff a1 a2 h1 h2 k,
   sync_empty_iff a1 a2 h1 h2⟩

/-- Claim C3 witness: concrete maps in which one prefix value is
overridden, one stale prefix key is removed, and an unrelated annotation
survives. -/
theorem c3_sync_patch_correct_witness :
    ((annKeys exportAnnotationsEx).Nodup ∧ (annKeys bindingAnnotationsEx).Nodup)
    ∧ lookupAnn (applyMergePatch bindingAnnotationsEx
        (syncExtraAnnotationPatch exportAnnotationsEx bindingAnnotationsEx))
        "extra.api.kcp.io/foo" = some "bar"
    ∧ lookupAnn (applyMergePatch bindingAnnotationsEx
        (syncExtraAnnotationPatch exportAnnotationsEx bindingAnnotationsEx))
        "extra.api.kcp.io/stale" = none
    ∧ lookupAnn (applyMergePatch bindingAnnotationsEx
        (syncExtraAnnotationPatch exportAnnotationsEx bindingAnnotationsEx))
        "color" = some "blue" := by
  refine ⟨⟨by decide, by decide⟩, ?_, ?_, ?_⟩
  · rw [(c3_sync_patch_correct exportAnnotationsEx bindingAnnotationsEx
      (by decide) (by decide)).1 _ (by decide)]
    decide
  · rw [(c3_sync_patch_correct exportAnnotationsEx bindingAnnotationsEx
      (by decide) (by decide)).1 _ (by decide)]
    decide
  · rw [(c3_sync_patch_correct exportAnnotationsEx bindingAnnotationsEx
      (by decide) (by decide)).2.1 _ (by decide)]
    decide

/-- Claim C4: the extra-annotation patch computation is idempotent; after
applying the patch, recomputing it against the updated binding yields an
empty patch, so the second pass writes nothing. -/
theorem c4_sync_patch_idempotent (a1 a2 : AnnMap)
    (h1 : (annKeys a1).Nodup) (h2 : (annKeys a2).Nodup) :
    syncExtraAnnotationPatch a1 (applyMergePatch a2 (syncExtraAnnotationPatch a1 a2)) = [] := by
  have h2' : (annKeys (applyMergePatch a2 (syncExtraAnnotationPatch a1 a2))).Nodup :=
    annKeys_applyPatch_nodup _ _ h2
  rw [sync_empty_iff a1 _ h1 h2']
  intro k he
  exact (applyPatch_sync_extra a1 a2 h1 h2 k he).symm

/-- Claim C4 witness: idempotence at the concrete example maps. -/
theorem c4_sync_patch_idempotent_witness :
    ((annKeys exportAnnotationsEx).Nodup ∧ (annKeys bindingAnnotationsEx).Nodup)
    ∧ syncExtraAnnotationPatch exportAnnotationsEx
        (applyMergePatch bindingAnnotationsEx
          (syncExtraAnnotationPatch exportAnnotationsEx bindingAnnotationsEx)) = [] :=
  ⟨⟨by decide, by decide⟩,
   c4_sync_patch_idempotent exportAnnotationsEx bindingAnnotationsEx (by decide) (by decide)⟩

/-! ## Theorems: endpoint slice, resolvers, worker loop, process -/

theorem mem_stringSetInsert (x y : String) (l : List String) :
    y ∈ stringSetInsert x l ↔ y = x ∨ y ∈ l := by
  induction l with
  | nil => simp [stringSetInsert]
  | cons z zs ih =>
    by_cases h1 : x < z
    · simp [stringSetInsert, h1]
    · by_cases h2 : x = z
      · subst h2
        simp only [stringSetInsert, if_neg h1, if_pos rfl]
        constructor
        · intro h
          exact Or.inr h
        · intro h
          rcases h with h | h
          · exact h ▸ List.mem_cons_self x zs
          · exact h
      · simp only [stringSetInsert, if_neg h1, if_neg h2, List.mem_cons]
        rw [ih]
        tauto

theorem pairwise_stringSetInsert (x : String) (l : List String)
    (h : l.Pairwise (· < ·)) : (stringSetInsert x l).Pairwise (· < ·) := by
  induction l with
  | nil => simp [stringSetInsert]
  | cons z zs ih =>
    have hz : ∀ y ∈ zs, z < y := fun y hy => (List.pairwise_cons.mp h).1 y hy
    have hzs : zs.Pairwise (· < ·) := (List.pairwise_cons.mp h).2
    by_cases h1 : x < z
    · rw [stringSetInsert, if_pos h1]
      refine List.pairwise_cons.mpr ⟨?_, h⟩
      intro y hy
      rcases List.mem_cons.mp hy with rfl | hy
      · exact h1
      · exact lt_trans h1 (hz y hy)
    · by_cases h2 : x = z
      · rw [stringSetInsert, if_neg h1, if_pos h2]
        exact h
      · rw [stringSetInsert, if_neg h1, if_neg h2]
        refine List.pairwise_cons.mpr ⟨?_, ih hzs⟩
        intro y hy
        rcases (mem_stringSetInsert x y zs).mp hy with rfl | hy
        · rcases lt_trichotomy y z with hlt | heq | hgt
          · exact absurd hlt h1
          · exact absurd heq h2
          · exact hgt
        · exact hz y hy

theorem pairwise_stringSetList_aux (l : List String) :
    ∀ acc : List String, acc.Pairwise (· < ·) →
      ((l.foldl (fun acc x => stringSetInsert x acc) acc).Pairwise (· < ·)
        ∧ ∀ y, y ∈ l.foldl (fun acc x => stringSetInsert x acc) acc ↔ y ∈ l ∨ y ∈ acc) := by
  induction l with
  | nil =>
    intro acc hacc
    refine ⟨hacc, ?_⟩
    intro y
    simp
  | cons z zs ih =>
    intro acc hacc
    have hstep := ih (stringSetInsert z acc) (pairwise_stringSetInsert z acc hacc)
    refine ⟨hstep.1, ?_⟩
    intro y
    rw [List.foldl_cons, hstep.2 y, mem_stringSetInsert]
    constructor
    · intro h
      rcases h with h | h | h
      · exact Or.inl (List.mem_cons_of_mem z h)
      · exact Or.inl (h ▸ List.mem_cons_self z zs)
      · exact Or.inr h
    · intro h
      rcases h with h | h
      · rcases List.mem_cons.mp h with rfl | h
        · exact Or.inr (Or.inl rfl)
        · exact Or.inl h
      · exact Or.inr (Or.inr h)

theorem pairwise_stringSetList (l : List String) :
    (stringSetList l).Pairwise (· < ·) :=
  (pairwise_stringSetList_aux l [] (List.Pairwise.nil)).1

theorem nodup_stringSetList (l : List String) : (stringSetList l).Nodup :=
  (pairwise_stringSetList l).imp (fun h => ne_of_lt h)

theorem mem_stringSetList (l : List String) (y : String) :
    y ∈ stringSetList l ↔ y ∈ l := by
  rw [stringSetList, (pairwise_stringSetList_aux l [] List.Pairwise.nil).2 y]
  simp

theorem getCondition_setCondition_self (conds : List Condition) (c : Condition) :
    getCondition (setCondition conds c) c.condType = some c := by
  unfold getCondition setCondition
  rw [List.find?_append]
  have hleft : (conds.filter (fun d => d.condType != c.condType)).find?
      (fun d => d.condType == c.condType) = none := by
    rw [List.find?_eq_none]
    intro d hd
    have := List.of_mem_filter hd
    simpa using this
  rw [hleft]
  simp

theorem find?_filter_of_imp (l : List Condition) (p q : Condition → Bool)
    (hpq : ∀ d, p d = true → q d = true) :
    (l.filter q).find? p = l.find? p := by
  induction l with
  | nil => rfl
  | cons e es ih =>
    by_cases hq : q e = true
    · rw [List.filter_cons_of_pos (by simpa using hq)]
      by_cases hp : p e = true
      · rw [List.find?_cons_of_pos _ (by simpa using hp),
          List.find?_cons_of_pos _ (by simpa using hp)]
      · rw [List.find?_cons_of_neg _ (by simpa using hp),
          List.find?_cons_of_neg _ (by simpa using hp)]
        exact ih
    · have hp : p e = false := by
        cases hpe : p e with
        | false => rfl
        | true => exact absurd (hpq e hpe) hq
      rw [List.filter_cons_of_neg (by simpa using hq),
        List.find?_cons_of_neg _ (by simp [hp])]
      exact ih

theorem getCondition_setCondition_other (conds : List Condition) (c : Condition)
    (t : String) (h : t ≠ c.condType) :
    getCondition (setCondition conds c) t = getCondition conds t := by
  unfold getCondition setCondition
  rw [List.find?_append]
  have hright : ([c].find? (fun d => d.condType == t)) = none := by
    rw [List.find?_eq_none]
    intro d hd
    rcases List.mem_singleton.mp hd with rfl
    simpa using fun hh => h hh.symm
  rw [hright, Option.or_none]
  refine find?_filter_of_imp conds _ _ ?_
  intro d hd
  have hdt : d.condType = t := by simpa using hd
  simp only [hdt, bne_iff_ne, ne_eq]
  intro hh
  exact h hh

/-- Claim C2: when the endpoint-slice reconcile resolves its export and
the shard listing succeeds, the status endpoints are exactly
updateEndpoints of the shards; that list is sorted lexicographically and
duplicate-free; every shard contribution appears in it and everything in
it is a shard contribution; and the per-shard contribution is none for an
empty or unparseable URL and otherwise exactly the parsed URL with the
virtual-workspace path joined onto its path. -/
theorem c2_endpoints_sorted_dedup
    (getExport : String → String → Except LookupErr APIExportObj)
    (listShardsRes : Except String (List Shard))
    (parseURLFn : String → Option GoURL) (renderURLFn : GoURL → String)
    (pathJoinFn : List String → String)
    (slice : APIExportEndpointSlice) (apiExport : APIExportObj) (shards : List Shard)
    (hok : getExport (if slice.specExportPath = "" then slice.homeCluster
        else slice.specExportPath) slice.specExportName = .ok apiExport)
    (hshards : listShardsRes = .ok shards) :
    (reconcileSlice getExport listShardsRes parseURLFn renderURLFn pathJoinFn
        slice).1.statusEndpoints
      = updateEndpoints parseURLFn renderURLFn pathJoinFn shards apiExport
    ∧ (updateEndpoints parseURLFn renderURLFn pathJoinFn shards apiExport).Pairwise (· < ·)
    ∧ (updateEndpoints parseURLFn renderURLFn pathJoinFn shards apiExport).Nodup
    ∧ (∀ shard ∈ shards, ∀ u,
        shardEndpointURL parseURLFn renderURLFn pathJoinFn apiExport shard = some u →
        u ∈ updateEndpoints parseURLFn renderURLFn pathJoinFn shards apiExport)
    ∧ (∀ u, u ∈ updateEndpoints parseURLFn renderURLFn pathJoinFn shards apiExport →
        ∃ shard ∈ shards,
          shardEndpointURL parseURLFn renderURLFn pathJoinFn apiExport shard = some u)
    ∧ (∀ shard : Shard,
        (shard.virtualWorkspaceURL = "" →
          shardEndpointURL parseURLFn renderURLFn pathJoinFn apiExport shard = none)
        ∧ (parseURLFn shard.virtualWorkspaceURL = none →
          shardEndpointURL parseURLFn renderURLFn pathJoinFn apiExport shard = none)
        ∧ (∀ u, shard.virtualWorkspaceURL ≠ "" →
            parseURLFn shard.virtualWorkspaceURL = some u →
            shardEndpointURL parseURLFn renderURLFn pathJoinFn apiExport shard
              = some (renderURLFn { u with
                  path := pathJoinFn (u.path ::
                    defaultRootPathComponents apiExport.homeCluster apiExport.name) }))) := by
  refine ⟨?_, pairwise_stringSetList _, nodup_stringSetList _, ?_, ?_, ?_⟩
  · simp only [reconcileSlice, hok, hshards]
  · intro shard hs u hu
    exact (mem_stringSetList _ u).mpr (List.mem_filterMap.mpr ⟨shard, hs, hu⟩)
  · intro u hu
    obtain ⟨shard, hs, hsu⟩ := List.mem_filterMap.mp ((mem_stringSetList _ u).mp hu)
    exact ⟨shard, hs, hsu⟩
  · intro shard
    refine ⟨?_, ?_, ?_⟩
    · intro hempty
      simp [shardEndpointURL, hempty]
    · intro hparse
      by_cases hempty : shard.virtualWorkspaceURL = ""
      · simp [shardEndpointURL, hempty]
      · simp [shardEndpointURL, hempty, hparse]
    · intro u hne hparse
      simp [shardEndpointURL, hne, hparse]

/-- Claim C6: when the referenced export is not found, the reconciler
clears the status endpoints, sets APIExportValid to false with reason
APIExportNotFound, and returns no error; when the export is found it sets
APIExportValid to true. -/
theorem c6_slice_export_notfound
    (getExport : String → String → Except LookupErr APIExportObj)
    (listShardsRes : Except String (List Shard))
    (parseURLFn : String → Option GoURL) (renderURLFn : GoURL → String)
    (pathJoinFn : List String → String)
    (slice : APIExportEndpointSlice) :
    (getExport (if slice.specExportPath = "" then slice.homeCluster
        else slice.specExportPath) slice.specExportName = .error .notFound →
      ((reconcileSlice getExport listShardsRes parseURLFn renderURLFn pathJoinFn
          slice).1.statusEndpoints = []
        ∧ getCondition (reconcileSlice getExport listShardsRes parseURLFn renderURLFn
            pathJoinFn slice).1.conditions APIExportValidCond
          = some ⟨APIExportValidCond, false, APIExportNotFoundReason⟩
        ∧ (reconcileSlice getExport listShardsRes parseURLFn renderURLFn pathJoinFn
            slice).2 = none))
    ∧ (∀ apiExport, getExport (if slice.specExportPath = "" then slice.homeCluster
        else slice.specExportPath) slice.specExportName = .ok apiExport →
        getCondition (reconcileSlice getExport listShardsRes parseURLFn renderURLFn
            pathJoinFn slice).1.conditions APIExportValidCond
          = some ⟨APIExportValidCond, true, ""⟩) := by
  constructor
  · intro h
    refine ⟨?_, ?_, ?_⟩
    · simp only [reconcileSlice, h]
    · simp only [reconcileSlice, h]
      exact getCondition_setCondition_self slice.conditions _
    · simp only [reconcileSlice, h]
  · intro apiExport h
    cases hs : listShardsRes with
    | error msg =>
      simp only [reconcileSlice, h, hs, markTrue, markFalse]
      rw [getCondition_setCondition_other _ _ _ (by decide)]
      exact getCondition_setCondition_self slice.conditions _
    | ok shards =>
      simp only [reconcileSlice, h, hs, markTrue, markFalse]
      rw [getCondition_setCondition_other _ _ _ (by decide)]
      exact getCondition_setCondition_self slice.conditions _

/-- Claim C9: when resolving the export fails with an error other than
NotFound, the reconciler sets APIExportValid to false with reason
InternalError, leaves the status endpoints unchanged, and returns the
error. -/
theorem c9_slice_export_internal_error
    (getExport : String → String → Except LookupErr APIExportObj)
    (listShardsRes : Except String (List Shard))
    (parseURLFn : String → Option GoURL) (renderURLFn : GoURL → String)
    (pathJoinFn : List String → String)
    (slice : APIExportEndpointSlice) :
    ∀ msg, getExport (if slice.specExportPath = "" then slice.homeCluster
        else slice.specExportPath) slice.specExportName = .error (.internal msg) →
      ((reconcileSlice getExport listShardsRes parseURLFn renderURLFn pathJoinFn
          slice).1.statusEndpoints = slice.statusEndpoints
        ∧ getCondition (reconcileSlice getExport listShardsRes parseURLFn renderURLFn
            pathJoinFn slice).1.conditions APIExportValidCond
          = some ⟨APIExportValidCond, false, InternalErrorReason⟩
        ∧ (reconcileSlice getExport listShardsRes parseURLFn renderURLFn pathJoinFn
            slice).2 = some (.exportError msg)) := by
  intro msg h
  refine ⟨?_, ?_, ?_⟩
  · simp only [reconcileSlice, h]
  · simp only [reconcileSlice, h]
    exact getCondition_setCondition_self slice.conditions _
  · simp only [reconcileSlice, h]

/-- Claim C5: both resolvers are two-tier local-first; a local success is
returned as is, a local NotFound falls back to the global tier, and any
other local error is propagated without consulting the global tier. -/
theorem c5_two_tier_local_first {α : Type}
    (localExportGet globalExportGet : String → String → Except LookupErr α)
    (localSchemaGet globalSchemaGet : String → String → Except LookupErr α)
    (p n clusterName sname : String) :
    (∀ e, localExportGet p n = .ok e →
      getAPIExportTwoTier localExportGet globalExportGet p n = .ok e)
    ∧ (localExportGet p n = .error .notFound →
      getAPIExportTwoTier localExportGet globalExportGet p n = globalExportGet p n)
    ∧ (∀ msg, localExportGet p n = .error (.internal msg) →
      getAPIExportTwoTier localExportGet globalExportGet p n = .error (.internal msg))
    ∧ (∀ e, localSchemaGet clusterName sname = .ok e →
      getAPIResourceSchemaTwoTier localSchemaGet globalSchemaGet clusterName sname = .ok e)
    ∧ (localSchemaGet clusterName sname = .error .notFound →
      getAPIResourceSchemaTwoTier localSchemaGet globalSchemaGet clusterName sname
        = globalSchemaGet clusterName sname)
    ∧ (∀ msg, localSchemaGet clusterName sname = .error (.internal msg) →
      getAPIResourceSchemaTwoTier localSchemaGet globalSchemaGet clusterName sname
        = .error (.internal msg)) := by
  refine ⟨?_, ?_, ?_, ?_, ?_, ?_⟩
  · intro e h
    simp [getAPIExportTwoTier, h]
  · intro h
    simp [getAPIExportTwoTier, h]
  · intro msg h
    simp [getAPIExportTwoTier, h]
  · intro e h
    simp [getAPIResourceSchemaTwoTier, h]
  · intro h
    simp [getAPIResourceSchemaTwoTier, h]
  · intro msg h
    simp [getAPIResourceSchemaTwoTier, h]

/-- Claim C5 witness: a local getter that reports NotFound makes the
two-tier resolver return the global result. -/
theorem c5_two_tier_local_first_witness :
    (fun (_ _ : String) => (Except.error LookupErr.notFound : Except LookupErr String)) "r" "e"
      = .error .notFound
    ∧ getAPIExportTwoTier
        (fun (_ _ : String) => (Except.error LookupErr.notFound : Except LookupErr String))
        (fun (_ _ : String) => (Except.ok "global" : Except LookupErr String)) "r" "e"
      = (fun (_ _ : String) => (Except.ok "global" : Except LookupErr String)) "r" "e" :=
  ⟨rfl, (c5_two_tier_local_first
      (fun (_ _ : String) => (Except.error LookupErr.notFound : Except LookupErr String))
      (fun (_ _ : String) => (Except.ok "global" : Except LookupErr String))
      (fun (_ _ : String) => (Except.error LookupErr.notFound : Except LookupErr String))
      (fun (_ _ : String) => (Except.ok "global" : Except LookupErr String))
      "r" "e" "c" "s").2.1 rfl⟩

/-- Claim C7: for every key obtained from the queue, the worker marks it
Done exactly once; an error re-adds it rate limited and skips Forget; a
requeue without error re-adds it with plain Add; otherwise Forget resets
the rate-limit counters; a quit signal ends the loop without processing. -/
theorem c7_worker_queue_discipline (processFn : String → Bool × Bool) (key : String) :
    ((processNextWorkItem (some key) processFn).2.count (QueueOp.doneItem key) = 1)
    ∧ ((processFn key).2 = true →
        QueueOp.addRateLimited key ∈ (processNextWorkItem (some key) processFn).2
        ∧ QueueOp.forget key ∉ (processNextWorkItem (some key) processFn).2
        ∧ QueueOp.add key ∉ (processNextWorkItem (some key) processFn).2)
    ∧ ((processFn key).2 = false → (processFn key).1 = true →
        QueueOp.add key ∈ (processNextWorkItem (some key) processFn).2
        ∧ QueueOp.forget key ∉ (processNextWorkItem (some key) processFn).2
        ∧ QueueOp.addRateLimited key ∉ (processNextWorkItem (some key) processFn).2)
    ∧ ((processFn key).2 = false → (processFn key).1 = false →
        QueueOp.forget key ∈ (processNextWorkItem (some key) processFn).2
        ∧ QueueOp.add key ∉ (processNextWorkItem (some key) processFn).2
        ∧ QueueOp.addRateLimited key ∉ (processNextWorkItem (some key) processFn).2)
    ∧ processNextWorkItem none processFn = (false, [QueueOp.getItem]) := by
  cases h2 : (processFn key).2 with
  | true =>
    refine ⟨?_, ?_, ?_, ?_, rfl⟩
    · simp [processNextWorkItem, h2, List.count_cons]
    · intro _
      simp [processNextWorkItem, h2]
    · intro hfalse _
      cases hfalse
    · intro hfalse _
      cases hfalse
  | false =>
    cases h1 : (processFn key).1 with
    | true =>
      refine ⟨?_, ?_, ?_, ?_, rfl⟩
      · simp [processNextWorkItem, h2, h1, List.count_cons]
      · intro htrue
        cases htrue
      · intro _ _
        simp [processNextWorkItem, h2, h1]
      · intro _ hfalse
        cases hfalse
    | false =>
      refine ⟨?_, ?_, ?_, ?_, rfl⟩
      · simp [processNextWorkItem, h2, h1, List.count_cons]
      · intro htrue
        cases htrue
      · intro _ htrue
        cases htrue
      · intro _ _
        simp [processNextWorkItem, h2, h1]

/-- Claim C10: the extra-annotation process returns success with no patch
when the export reference is nil or the referenced export is not found,
leaving existing annotations in place, and an empty reference path is
resolved against the logical-cluster path of the binding. -/
theorem c10_process_skip_behavior
    (getExport : String → String → Except LookupErr APIExportObj)
    (b : APIBindingObj) :
    (b.refExport = none → processBindingAnnotationSync getExport b = .ok .noPatch)
    ∧ (∀ ref, b.refExport = some ref →
        getExport (if ref.path = "" then b.clusterName else ref.path) ref.name
          = .error .notFound →
        processBindingAnnotationSync getExport b = .ok .noPatch)
    ∧ (∀ ref, b.refExport = some ref → ref.path = "" →
        ∀ g1 g2 : String → String → Except LookupErr APIExportObj,
          g1 b.clusterName ref.name = g2 b.clusterName ref.name →
          processBindingAnnotationSync g1 b = processBindingAnnotationSync g2 b) := by
  refine ⟨?_, ?_, ?_⟩
  · intro h
    simp [processBindingAnnotationSync, h]
  · intro ref href h
    simp [processBindingAnnotationSync, href, h]
  · intro ref href hpath g1 g2 hagree
    simp only [processBindingAnnotationSync, href, hpath, if_true]
    rw [hagree]

/-- Claim C2 witness: the concrete two-shard scenario; the third shard has
an empty URL, the stale status endpoints are replaced, and the result is
sorted and duplicate-free. -/
theorem c2_endpoints_sorted_dedup_witness :
    (getExportFx (if sliceFx.specExportPath = "" then sliceFx.homeCluster
        else sliceFx.specExportPath) sliceFx.specExportName = .ok exportFx)
    ∧ ((Except.ok shardsFx : Except String (List Shard)) = .ok shardsFx)
    ∧ (reconcileSlice getExportFx (.ok shardsFx) parseURLFx renderURLFx pathJoinFx
        sliceFx).1.statusEndpoints
      = updateEndpoints parseURLFx renderURLFx pathJoinFx shardsFx exportFx
    ∧ (updateEndpoints parseURLFx renderURLFx pathJoinFx shardsFx exportFx).Pairwise (· < ·)
    ∧ (updateEndpoints parseURLFx renderURLFx pathJoinFx shardsFx exportFx).Nodup := by
  have h := c2_endpoints_sorted_dedup getExportFx (.ok shardsFx) parseURLFx renderURLFx
    pathJoinFx sliceFx exportFx shardsFx rfl rfl
  exact ⟨rfl, rfl, h.1, h.2.1, h.2.2.1⟩

/-- Claim C6 witness: an export getter that finds nothing makes the
reconciler clear the endpoints, mark APIExportValid false with reason
APIExportNotFound, and return no error. -/
theorem c6_slice_export_notfound_witness :
    (getExportNotFoundFx (if sliceFx.specExportPath = "" then sliceFx.homeCluster
        else sliceFx.specExportPath) sliceFx.specExportName = .error .notFound)
    ∧ (reconcileSlice getExportNotFoundFx (.ok shardsFx) parseURLFx renderURLFx pathJoinFx
        sliceFx).1.statusEndpoints = []
    ∧ getCondition (reconcileSlice getExportNotFoundFx (.ok shardsFx) parseURLFx renderURLFx
        pathJoinFx sliceFx).1.conditions APIExportValidCond
      = some ⟨APIExportValidCond, false, APIExportNotFoundReason⟩
    ∧ (reconcileSlice getExportNotFoundFx (.ok shardsFx) parseURLFx renderURLFx pathJoinFx
        sliceFx).2 = none := by
  have h := (c6_slice_export_notfound getExportNotFoundFx (.ok shardsFx) parseURLFx
    renderURLFx pathJoinFx sliceFx).1 rfl
  exact ⟨rfl, h.1, h.2.1, h.2.2⟩

/-- Claim C9 witness: an export getter failing with an error other than
NotFound makes the reconciler keep the endpoints, mark APIExportValid
false with reason InternalError, and return the error. -/
theorem c9_slice_export_internal_error_witness :
    (getExportBrokenFx (if sliceFx.specExportPath = "" then sliceFx.homeCluster
        else sliceFx.specExportPath) sliceFx.specExportName
      = .error (.internal "cache unavailable"))
    ∧ (reconcileSlice getExportBrokenFx (.ok shardsFx) parseURLFx renderURLFx pathJoinFx
        sliceFx).1.statusEndpoints = sliceFx.statusEndpoints
    ∧ getCondition (reconcileSlice getExportBrokenFx (.ok shardsFx) parseURLFx renderURLFx
        pathJoinFx sliceFx).1.conditions APIExportValidCond
      = some ⟨APIExportValidCond, false, InternalErrorReason⟩
    ∧ (reconcileSlice getExportBrokenFx (.ok shardsFx) parseURLFx renderURLFx pathJoinFx
        sliceFx).2 = some (.exportError "cache unavailable") := by
  have h := c9_slice_export_internal_error getExportBrokenFx (.ok shardsFx) parseURLFx
    renderURLFx pathJoinFx sliceFx "cache unavailable" rfl
  exact ⟨rfl, h.1, h.2.1, h.2.2⟩

/-- Claim C7 witness: a process result reporting an error leads to a
rate-limited re-add, no Forget, and exactly one Done. -/
theorem c7_worker_queue_discipline_witness :
    ((fun (_ : String) => ((false : Bool), (true : Bool))) "key1").2 = true
    ∧ QueueOp.addRateLimited "key1"
        ∈ (processNextWorkItem (some "key1") (fun _ => (false, true))).2
    ∧ QueueOp.forget "key1"
        ∉ (processNextWorkItem (some "key1") (fun _ => (false, true))).2
    ∧ (processNextWorkItem (some "key1") (fun _ => (false, true))).2.count
        (QueueOp.doneItem "key1") = 1 := by
  have h := c7_worker_queue_discipline (fun _ => (false, true)) "key1"
  exact ⟨rfl, (h.2.1 rfl).1, (h.2.1 rfl).2.1, h.1⟩

/-- Claim C10 witness: a binding without an export reference and a binding
whose reference has an empty path, against a getter that finds nothing;
both process calls succeed without a patch, and with an empty path only
the value of the getter at the logical-cluster path of the binding
matters. -/
theorem c10_process_skip_behavior_witness :
    (bindingNoRefFx.refExport = none)
    ∧ processBindingAnnotationSync getExportNotFoundFx bindingNoRefFx = .ok .noPatch
    ∧ (bindingEmptyPathFx.refExport = some ⟨"", "e"⟩)
    ∧ processBindingAnnotationSync getExportNotFoundFx bindingEmptyPathFx = .ok .noPatch
    ∧ processBindingAnnotationSync getExportNotFoundFx bindingEmptyPathFx
        = processBindingAnnotationSync getExportFx bindingEmptyPathFx := by
  have h := c10_process_skip_behavior getExportNotFoundFx bindingNoRefFx
  have h2 := c10_process_skip_behavior getExportNotFoundFx bindingEmptyPathFx
  exact ⟨rfl, h.1 rfl, rfl, h2.2.1 ⟨"", "e"⟩ rfl rfl,
    h2.2.2 ⟨"", "e"⟩ rfl rfl getExportNotFoundFx getExportFx rfl⟩
